import Mathlib

/-! rai-project/health: collector orchestration and request instrumentation

A shallow embedding of `machine.go`, `web.go` and `utils.go`.

* Go `string` values are Lean `String`s; `len` is the UTF-8 byte length.
* Go maps are association lists read with `List.lookup`.
* A Go `error` is its message; `nil` is `none`.
* Go `int` is the 64-bit two's-complement integer: arithmetic results are wrapped by
  `wrapInt`.
-/

set_option autoImplicit false

namespace Health

/-! ## Library functions used by the source -/

/-- Pieces of a character sequence between occurrences of `sep`; the empty sequence
has the single piece `[]`, as `strings.Split("", ",")` is `[""]`. -/
def splitChars (sep : Char) : List Char → List (List Char)
  | [] => [[]]
  | c :: cs =>
    if c = sep then [] :: splitChars sep cs
    else
      match splitChars sep cs with
      | [] => [[c]]
      | w :: ws => (c :: w) :: ws

/-- Concatenation of character sequences with `sep` between consecutive ones. -/
def joinChars (sep : Char) : List (List Char) → List Char
  | [] => []
  | [w] => w
  | w :: v :: ws => w ++ sep :: joinChars sep (v :: ws)

/-- Go `strings.Split(s, sep)` for a one-character separator (every call in the source
passes `","`). -/
def stringsSplit (s : String) (sep : Char) : List String :=
  (splitChars sep s.data).map String.mk

/-- Go `strings.Join(elems, sep)` for a one-character separator. -/
def stringsJoin (elems : List String) (sep : Char) : String :=
  String.mk (joinChars sep (elems.map String.data))

/-- Go `len(s)`: the number of bytes of `s`. -/
def len (s : String) : Int := (s.utf8ByteSize : Int)

/-- Go `int` arithmetic: the two's-complement value of `x` in 64 bits. -/
def wrapInt (x : Int) : Int :=
  (x + 9223372036854775808) % 18446744073709551616 - 9223372036854775808

/-- Go `strconv.Itoa`. -/
def Itoa (n : Int) : String := toString n

/-! ## Prometheus data model (`prometheus.Desc`, `prometheus.Metric`) -/

/-- The identity of a metric family, as built by `prometheus.NewDesc`. -/
structure Desc where
  fqName : String
  help : String
  variableLabels : List String
  deriving DecidableEq, Repr

/-- The value kinds of `prometheus.ValueType`. -/
inductive ValueType where
  | CounterValue
  | GaugeValue
  | UntypedValue
  deriving DecidableEq, Repr

/-- One sample: descriptor, kind, value and the values of the variable labels. -/
structure Metric where
  desc : Desc
  valueType : ValueType
  value : Rat
  labelValues : List String
  deriving DecidableEq, Repr

/-- Go `prometheus.BuildFQName`. -/
def BuildFQName (ns subsystem name : String) : String :=
  if name = "" then ""
  else if ns ≠ "" ∧ subsystem ≠ "" then stringsJoin [ns, subsystem, name] '_'
  else if ns ≠ "" then stringsJoin [ns, name] '_'
  else if subsystem ≠ "" then stringsJoin [subsystem, name] '_'
  else name

/-- Go `prometheus.NewDesc` without constant labels. -/
def NewDesc (fqName help : String) (variableLabels : List String) : Desc :=
  { fqName := fqName, help := help, variableLabels := variableLabels }

/-- Go `prometheus.MustNewConstMetric`. It panics when the number of label values differs
from the number of variable labels of the descriptor; both calls in `execute` pass one value
for a descriptor with one label (`execute_label_arity`). -/
def MustNewConstMetric (desc : Desc) (valueType : ValueType) (value : Rat)
    (labelValues : List String) : Metric :=
  { desc := desc, valueType := valueType, value := value, labelValues := labelValues }

/-! ## machine.go -/

/-- The constant `collector.Namespace` of the node_exporter package. -/
def collectorNamespace : String := "node"

/-- Source: `scrapeDurationDesc`. -/
def scrapeDurationDesc : Desc :=
  NewDesc (BuildFQName collectorNamespace "scrape" "collector_duration_seconds")
    "machine_exporter: Duration of a collector scrape." ["collector"]

/-- Source: `scrapeSuccessDesc`. -/
def scrapeSuccessDesc : Desc :=
  NewDesc (BuildFQName collectorNamespace "scrape" "collector_success")
    "machine_exporter: Whether a collector succeeded." ["collector"]

/-- What one call `c.Update(ch)` of a `collector.Collector` does during a scrape: the
metrics it sends on `ch`, the error it returns, and the nanoseconds the monotonic clock
advanced between `time.Now()` before the call and `time.Since(begin)` after it. -/
structure Collector where
  emitted : List Metric
  err : Option String
  elapsed : Nat
  deriving DecidableEq, Repr

/-- Go `time.Duration.Seconds` (exact, not rounded to a float64). -/
def Seconds (nanos : Nat) : Rat := (nanos : Rat) / 1000000000

/-- Source: `execute`. The result is the sequence of values sent on `ch`; the two log
calls write nothing to `ch`. -/
def execute (name : String) (c : Collector) : List Metric :=
  let duration := c.elapsed
  let success : Rat :=
    match c.err with
    | some _ => 0
    | none => 1
  c.emitted ++
    [MustNewConstMetric scrapeDurationDesc ValueType.GaugeValue (Seconds duration) [name],
     MustNewConstMetric scrapeSuccessDesc ValueType.GaugeValue success [name]]

/-- All ways in which the sends of concurrently running tasks can arrive on one channel:
each step delivers the next pending send of some task; the run is over when no task has a
pending send. -/
inductive Interleaving {α : Type} : List (List α) → List α → Prop
  | done (ts : List (List α)) : (∀ t ∈ ts, t = []) → Interleaving ts []
  | send (pre post : List (List α)) (x : α) (t out : List α) :
      Interleaving (pre ++ t :: post) out →
      Interleaving (pre ++ (x :: t) :: post) (x :: out)

/-- Source: `machineCollector.Collect`. One goroutine per entry of `n.collectors` runs
`execute`; `wg.Wait()` returns when all of them are done. `Collect collectors sink` holds
when `sink` is a sequence the reader of `ch` can receive during the call. -/
def Collect (collectors : List (String × Collector)) (sink : List Metric) : Prop :=
  Interleaving (collectors.map (fun nc => execute nc.1 nc.2)) sink

/-- The schedule of `Collect` in which the goroutines run one after the other. -/
def CollectSeq (collectors : List (String × Collector)) : List Metric :=
  (collectors.map (fun nc => execute nc.1 nc.2)).flatten

/-- The next pending send of task `i`, with the tasks after it; `none` when there is no
task `i` or it has nothing left to send. -/
def sendAt {α : Type} : List (List α) → Nat → Option (α × List (List α))
  | [], _ => none
  | [] :: _, 0 => none
  | (x :: t) :: ts, 0 => some (x, t :: ts)
  | t :: ts, i + 1 =>
    match sendAt ts i with
    | none => none
    | some (x, ts1) => some (x, t :: ts1)

/-- The sequence received when the scheduler lets the tasks send in the order `schedule`
(one task index per send); `none` when the schedule names a task with nothing to send or
stops before all tasks are done. -/
def runSchedule {α : Type} : List (List α) → List Nat → Option (List α)
  | ts, [] => if ts.all List.isEmpty then some [] else none
  | ts, i :: schedule =>
    match sendAt ts i with
    | none => none
    | some (x, ts1) =>
      match runSchedule ts1 schedule with
      | none => none
      | some out => some (x :: out)

/-- Source: `machineCollector.Collect` under the goroutine schedule `schedule`. -/
def CollectWith (collectors : List (String × Collector)) (schedule : List Nat) :
    Option (List Metric) :=
  runSchedule (collectors.map (fun nc => execute nc.1 nc.2)) schedule

/-- A `scrape_duration` sample labelled `collector=n`. -/
def isDurationSample (n : String) (m : Metric) : Bool :=
  decide (m.desc = scrapeDurationDesc) && decide (m.labelValues = [n])

/-- A `scrape_success` sample labelled `collector=n`. -/
def isSuccessSample (n : String) (m : Metric) : Bool :=
  decide (m.desc = scrapeSuccessDesc) && decide (m.labelValues = [n])

/-- A factory of the registry `collector.Factories`. -/
abbrev Factory := Unit → Except String Collector

/-- The type of `collector.Factories`: `map[string]func() (Collector, error)`. -/
abbrev FactoryMap := List (String × Factory)

/-- Go `_, ok := collector.Factories[c]`. -/
def hasFactory (Factories : FactoryMap) (c : String) : Bool :=
  (Factories.lookup c).isSome

/-- The slice `availableCollectors` at the end of the loop of
`filterAvailableCollectors`. -/
def availableCollectors (Factories : FactoryMap) (collectors : String) : List String :=
  (stringsSplit collectors ',').foldl
    (fun available c => if hasFactory Factories c then available ++ [c] else available) []

/-- Source: `filterAvailableCollectors`. -/
def filterAvailableCollectors (Factories : FactoryMap) (collectors : String) : String :=
  stringsJoin (availableCollectors Factories collectors) ','

/-- Go map assignment `m[k] = v`. -/
def mapSet (m : List (String × Collector)) (k : String) (v : Collector) :
    List (String × Collector) :=
  match m with
  | [] => [(k, v)]
  | (k0, v0) :: rest => if k0 = k then (k, v) :: rest else (k0, v0) :: mapSet rest k v

/-- The loop of `loadCollectors` over the remaining names. -/
def loadLoop (Factories : FactoryMap) :
    List String → List (String × Collector) → Except String (List (String × Collector))
  | [], collectors => Except.ok collectors
  | name :: rest, collectors =>
    match Factories.lookup name with
    | none => Except.error ("collector '" ++ name ++ "' not available")
    | some fn =>
      match fn () with
      | Except.error err => Except.error err
      | Except.ok c => loadLoop Factories rest (mapSet collectors name c)

/-- Source: `loadCollectors`. `Except.error err` is the return `nil, err`. -/
def loadCollectors (Factories : FactoryMap) (list : String) :
    Except String (List (String × Collector)) :=
  loadLoop Factories (stringsSplit list ',') []

/-- Whether the text `sub` occurs at the start of `s`. -/
def startsWith : List Char → List Char → Bool
  | _, [] => true
  | [], _ :: _ => false
  | a :: s, b :: sub => a == b && startsWith s sub

/-- Whether the text `sub` occurs somewhere in `s`. -/
def hasSub : List Char → List Char → Bool
  | [], sub => sub.isEmpty
  | a :: s, sub => startsWith (a :: s) sub || hasSub s sub

/-- An error message names a collector when the collector name occurs in it. -/
def mentions (msg name : String) : Bool := hasSub msg.data name.data

/-! ## web.go -/

/-- The parts of `url.URL` of a request target in origin form: the escaped path and the
query without the question mark. -/
structure URL where
  Path : String
  RawQuery : String
  deriving DecidableEq, Repr

/-- Go `(*url.URL).String` on such a URL: the path, then `?` and the query when the
query is not empty. -/
def URL.String (u : URL) : String :=
  if u.RawQuery = "" then u.Path else u.Path ++ "?" ++ u.RawQuery

/-- The fields of `http.Request` the source reads. `URL = none` is the nil pointer; `Header`
lists the entries of the header map. -/
structure Request where
  URL : Option URL
  Method : String
  Proto : String
  Header : List (String × List String)
  Host : String
  ContentLength : Int
  RequestURI : String
  deriving DecidableEq, Repr

/-- Source: `computeApproximateRequestSize`; the result is the value sent on `out`. -/
def computeApproximateRequestSize (r : Request) : Int :=
  let s : Int := 0
  let s :=
    match r.URL with
    | some u => len u.String
    | none => s
  let s := wrapInt (s + len r.Method)
  let s := wrapInt (s + len r.Proto)
  let s := r.Header.foldl
    (fun s nv => nv.2.foldl (fun s value => wrapInt (s + len value)) (wrapInt (s + len nv.1))) s
  let s := wrapInt (s + len r.Host)
  let s := if r.ContentLength ≠ -1 then wrapInt (s + wrapInt r.ContentLength) else s
  s

/-- The request size as the specification words it: the Content-Length is added when it is
non-negative. -/
def specRequestSize (r : Request) : Int :=
  (match r.URL with
    | some u => len u.String
    | none => 0)
  + len r.Method + len r.Proto
  + (r.Header.map (fun nv => len nv.1 + (nv.2.map len).sum)).sum
  + len r.Host
  + (if 0 ≤ r.ContentLength then r.ContentLength else 0)

/-- The sum the source computes when no addition overflows: the Content-Length is added
unless it is `-1`. -/
def requestSizeSum (r : Request) : Int :=
  (match r.URL with
    | some u => len u.String
    | none => 0)
  + len r.Method + len r.Proto
  + (r.Header.map (fun nv => len nv.1 + (nv.2.map len).sum)).sum
  + len r.Host
  + (if r.ContentLength ≠ -1 then r.ContentLength else 0)

/-- The fields of `echo.Response` the source reads. -/
structure Response where
  Status : Int
  Size : Int
  deriving DecidableEq, Repr

/-- A `prometheus.CounterVec`: the count of every label combination incremented so far. -/
abbrev CounterVec := List (List String × Nat)

/-- Go `vec.WithLabelValues(lvs...).Inc()`. -/
def CounterVec.Inc (vec : CounterVec) (lvs : List String) : CounterVec :=
  match vec with
  | [] => [(lvs, 1)]
  | (l, n) :: rest => if l = lvs then (l, n + 1) :: rest else (l, n) :: CounterVec.Inc rest lvs

/-- A `prometheus.Summary`: the observations made so far, oldest first. -/
abbrev Summary := List Rat

/-- Go `s.Observe(v)`. -/
def Summary.Observe (s : Summary) (v : Rat) : Summary := s ++ [v]

/-- Source: `webExporter`, with the four families of `registerMetrics` in place. -/
structure webExporter where
  reqCnt : CounterVec
  reqDur : Summary
  reqSz : Summary
  resSz : Summary
  MetricsPath : String
  deriving DecidableEq, Repr

/-- Everything a handler can read and change: the request and response of the
`echo.Context`, the exporter `p`, and the monotonic clock in nanoseconds. -/
structure World where
  request : Request
  response : Response
  p : webExporter
  now : Nat
  deriving DecidableEq, Repr

/-- An `echo.HandlerFunc` applied to the context: `none` is a panic, otherwise the world it
leaves and the error it returns. -/
abbrev HandlerFunc := World → Option (World × Option String)

/-- Source: `webExporter.Use`, the handler it builds around `next`. The size computation
started before `next(c)` reads the request as it is at that point. -/
def Use (next : HandlerFunc) : HandlerFunc := fun w =>
  match w.request.URL with
  | none => none
  | some u =>
    if u.String = w.p.MetricsPath then
      match next w with
      | none => none
      | some (w1, _) => some (w1, none)
    else
      let start := w.now
      let reqSz := computeApproximateRequestSize w.request
      match next w with
      | none => none
      | some (w1, _) =>
        let status := Itoa w1.response.Status
        let elapsed : Rat := (((w1.now : Int) - (start : Int) : Int) : Rat) / 1000000000
        let resSz : Rat := (w1.response.Size : Rat)
        let p1 := { w1.p with reqDur := w1.p.reqDur.Observe elapsed }
        let p2 := { p1 with reqCnt := p1.reqCnt.Inc [status, w1.request.Method, w1.request.RequestURI] }
        let p3 := { p2 with reqSz := p2.reqSz.Observe (reqSz : Rat) }
        let p4 := { p3 with resSz := p3.resSz.Observe resSz }
        some ({ w1 with p := p4 }, none)

/-! ## utils.go -/

/-- Source: the loop of `captureMetricQ` over the remaining entries of
`Config.Metrics`; `metricName` is already lower-cased. -/
def captureLoop (ToLower : String → String) (metricName : String) : List String → Bool
  | [] => false
  | toCapture :: rest =>
    let toCapture := ToLower toCapture
    if metricName = toCapture then true else captureLoop ToLower metricName rest

/-- Source: `captureMetricQ`. `ToLower` is `strings.ToLower` and `Metrics` is
`Config.Metrics`. -/
def captureMetricQ (ToLower : String → String) (Metrics : List String)
    (metricName : String) : Bool :=
  let metricName := ToLower metricName
  captureLoop ToLower metricName Metrics

/-- Go `unicode.ToLower` on Basic Latin (U+0000..U+007F) and on U+017F, the long s, which is
its own lower case. Other code points are outside this fragment of the case tables. -/
def unicodeToLower (c : Char) : Char :=
  if 'A' ≤ c ∧ c ≤ 'Z' then Char.ofNat (c.toNat + 32) else c

/-- Go `unicode.ToUpper` on Basic Latin (U+0000..U+007F) and on U+017F, the long s, whose
upper case is U+0053 `S`. Other code points are outside this fragment of the case tables. -/
def unicodeToUpper (c : Char) : Char :=
  if 'a' ≤ c ∧ c ≤ 'z' then Char.ofNat (c.toNat - 32)
  else if c = Char.ofNat 383 then 'S'
  else c

/-- Go `strings.ToLower` on text over the code points covered by `unicodeToLower`: every
code point is mapped by `unicode.ToLower`. -/
def stringsToLower (s : String) : String := String.mk (s.data.map unicodeToLower)

/-- Go `strings.ToUpper` on text over the code points covered by `unicodeToUpper`: every
code point is mapped by `unicode.ToUpper`. -/
def stringsToUpper (s : String) : String := String.mk (s.data.map unicodeToUpper)

/-! ## Concrete inputs used in the examples -/

/-- A sub-collector whose `Update` sends nothing and succeeds. -/
def okCollector : Collector := { emitted := [], err := none, elapsed := 0 }

/-- A registry with the two collectors `cpu` and `meminfo`, both factories succeeding. -/
def minimalFactories : FactoryMap :=
  [("cpu", fun _ => Except.ok okCollector), ("meminfo", fun _ => Except.ok okCollector)]

/-- A registry whose only factory, `cpu`, fails with the error `boom`. -/
def failingFactories : FactoryMap := [("cpu", fun _ => Except.error "boom")]

/-- A registry in which `cpu` succeeds, `diskstats` fails with `disk` and `meminfo` fails
with `mem`. -/
def mixedFactories : FactoryMap :=
  [("cpu", fun _ => Except.ok okCollector),
   ("diskstats", fun _ => Except.error "disk"),
   ("meminfo", fun _ => Except.error "mem")]

/-- Sub-collectors that send samples of the two scrape descriptors themselves: `cpu` sends a
`scrape_duration` sample labelled `cpu` and a `scrape_success` sample labelled `gpu`. -/
def rogueCollectors : List (String × Collector) :=
  [("cpu",
    { emitted :=
        [MustNewConstMetric scrapeDurationDesc ValueType.GaugeValue 5 ["cpu"],
         MustNewConstMetric scrapeSuccessDesc ValueType.GaugeValue 1 ["gpu"]],
      err := none,
      elapsed := 7 })]

/-- Scenario "partial scrape failure": `cpu` sends one metric and succeeds, `diskstats`
fails. -/
def diskFailure : List (String × Collector) :=
  [("cpu",
    { emitted := [MustNewConstMetric (NewDesc "node_cpu" "cpu time." []) ValueType.CounterValue 42 []],
      err := none,
      elapsed := 1500 }),
   ("diskstats", { emitted := [], err := some "read error", elapsed := 300 })]

/-- Scenario "request-size computation": `GET /p?q=1 HTTP/1.1`, header `X: ab`, Host `h`,
Content-Length 0. -/
def exampleRequest : Request :=
  { URL := some { Path := "/p", RawQuery := "q=1" },
    Method := "GET",
    Proto := "HTTP/1.1",
    Header := [("X", ["ab"])],
    Host := "h",
    ContentLength := 0,
    RequestURI := "/p?q=1" }

/-- The same request with the Content-Length field set to `-5`. -/
def negativeLengthRequest : Request := { exampleRequest with ContentLength := -5 }

/-- The same request announcing a body of `2^63 - 1` bytes. -/
def hugeLengthRequest : Request :=
  { exampleRequest with ContentLength := 9223372036854775807 }

/-- An exporter on which nothing has been counted or observed. -/
def idleExporter : webExporter :=
  { reqCnt := [], reqDur := [], reqSz := [], resSz := [], MetricsPath := "/metrics" }

/-- An inner handler that answers 200 with 12 bytes after 1000 ns. -/
def okHandler : HandlerFunc := fun w =>
  some ({ w with response := { Status := 200, Size := 12 }, now := w.now + 1000 }, none)

/-- An inner handler that returns the error `boom`. -/
def failingHandler : HandlerFunc := fun w => some (w, some "boom")

/-- A request `GET /metrics?x=1` arriving at an idle exporter. -/
def metricsQueryWorld : World :=
  { request :=
      { URL := some { Path := "/metrics", RawQuery := "x=1" },
        Method := "GET",
        Proto := "HTTP/1.1",
        Header := [],
        Host := "h",
        ContentLength := 0,
        RequestURI := "/metrics?x=1" },
    response := { Status := 0, Size := 0 },
    p := idleExporter,
    now := 0 }

/-- A request `GET /metrics` arriving at an idle exporter. -/
def metricsWorld : World :=
  { request :=
      { URL := some { Path := "/metrics", RawQuery := "" },
        Method := "GET",
        Proto := "HTTP/1.1",
        Header := [],
        Host := "h",
        ContentLength := 0,
        RequestURI := "/metrics" },
    response := { Status := 0, Size := 0 },
    p := idleExporter,
    now := 0 }

/-- A request `GET /p?q=1` arriving at an idle exporter. -/
def pageWorld : World :=
  { request := exampleRequest,
    response := { Status := 0, Size := 0 },
    p := idleExporter,
    now := 0 }

/-! # Theorems -/

/-! ## Split and Join -/

theorem splitChars_ne_nil (sep : Char) (s : List Char) : splitChars sep s ≠ [] := by
  induction s with
  | nil => simp [splitChars]
  | cons c cs ih =>
    unfold splitChars
    split
    · simp
    · split <;> simp

theorem splitChars_no_sep (sep : Char) (s : List Char) :
    ∀ w ∈ splitChars sep s, sep ∉ w := by
  induction s with
  | nil => simp [splitChars]
  | cons c cs ih =>
    unfold splitChars
    split
    · intro w hw
      rcases List.mem_cons.1 hw with h | h
      · subst h; simp
      · exact ih w h
    · rename_i hc
      split
      · intro w hw
        simp only [List.mem_singleton] at hw
        subst hw
        simp only [List.mem_singleton]
        exact fun h => hc h.symm
      · rename_i w0 ws heq
        intro w hw
        rcases List.mem_cons.1 hw with h | h
        · subst h
          have h0 : sep ∉ w0 := ih w0 (by rw [heq]; exact List.mem_cons_self _ _)
          intro hmem
          rcases List.mem_cons.1 hmem with h1 | h1
          · exact hc h1.symm
          · exact h0 h1
        · exact ih w (by rw [heq]; exact List.mem_cons_of_mem _ h)

theorem splitChars_of_no_sep (sep : Char) (w : List Char) (h : sep ∉ w) :
    splitChars sep w = [w] := by
  induction w with
  | nil => simp [splitChars]
  | cons c cs ih =>
    have hc : c ≠ sep := fun e => h (by simp [e])
    have hcs : sep ∉ cs := fun e => h (List.mem_cons_of_mem _ e)
    simp [splitChars, hc, ih hcs]

theorem splitChars_append_sep (sep : Char) (w rest : List Char) (h : sep ∉ w) :
    splitChars sep (w ++ sep :: rest) = w :: splitChars sep rest := by
  induction w with
  | nil => simp [splitChars]
  | cons c cs ih =>
    have hc : c ≠ sep := fun e => h (by simp [e])
    have hcs : sep ∉ cs := fun e => h (List.mem_cons_of_mem _ e)
    simp [splitChars, hc, ih hcs]

theorem splitChars_joinChars (sep : Char) (ws : List (List Char)) (hne : ws ≠ [])
    (h : ∀ w ∈ ws, sep ∉ w) : splitChars sep (joinChars sep ws) = ws := by
  induction ws with
  | nil => exact absurd rfl hne
  | cons w rest ih =>
    cases rest with
    | nil => simpa [joinChars] using splitChars_of_no_sep sep w (h w (by simp))
    | cons v vs =>
      have hw : sep ∉ w := h w (by simp)
      have hrest : ∀ u ∈ v :: vs, sep ∉ u := fun u hu => h u (List.mem_cons_of_mem _ hu)
      simp only [joinChars]
      rw [splitChars_append_sep sep w _ hw, ih (by simp) hrest]

theorem stringsSplit_no_sep (sep : Char) (s : String) :
    ∀ n ∈ stringsSplit s sep, sep ∉ n.data := by
  intro n hn
  simp only [stringsSplit, List.mem_map] at hn
  obtain ⟨w, hw, rfl⟩ := hn
  exact splitChars_no_sep sep s.data w hw

theorem stringsSplit_stringsJoin (sep : Char) (l : List String) (hne : l ≠ [])
    (h : ∀ n ∈ l, sep ∉ n.data) : stringsSplit (stringsJoin l sep) sep = l := by
  unfold stringsSplit stringsJoin
  have h1 : l.map String.data ≠ [] := by simpa using hne
  have h2 : ∀ w ∈ l.map String.data, sep ∉ w := by
    intro w hw
    obtain ⟨n, hn, rfl⟩ := List.mem_map.1 hw
    exact h n hn
  simp only []
  rw [splitChars_joinChars sep _ h1 h2, List.map_map]
  have : (String.mk ∘ String.data) = id := by
    funext x
    rfl
  rw [this, List.map_id]

/-! ## filterAvailableCollectors and loadCollectors -/

theorem filter_loop_eq (p : String → Bool) (l acc : List String) :
    l.foldl (fun available c => if p c then available ++ [c] else available) acc
      = acc ++ l.filter p := by
  induction l generalizing acc with
  | nil => simp
  | cons c cs ih =>
    simp only [List.foldl_cons, List.filter_cons]
    by_cases hp : p c = true
    · simp [hp, ih]
    · simp [hp, ih]

theorem availableCollectors_eq_filter (Factories : FactoryMap) (collectors : String) :
    availableCollectors Factories collectors
      = (stringsSplit collectors ',').filter (hasFactory Factories) := by
  unfold availableCollectors
  rw [filter_loop_eq]
  simp

theorem loadLoop_error (Factories : FactoryMap) (names : List String)
    (collectors : List (String × Collector)) (e : String)
    (h : loadLoop Factories names collectors = Except.error e) :
    (∃ n ∈ names, Factories.lookup n = none ∧ e = "collector '" ++ n ++ "' not available") ∨
    (∃ n ∈ names, ∃ fn, Factories.lookup n = some fn ∧ fn () = Except.error e) := by
  induction names generalizing collectors with
  | nil => simp [loadLoop] at h
  | cons name rest ih =>
    unfold loadLoop at h
    split at h
    · rename_i hl
      left
      refine ⟨name, List.mem_cons_self _ _, hl, ?_⟩
      injection h with h
      exact h.symm
    · rename_i fn hl
      split at h
      · rename_i err hf
        right
        injection h with h
        subst h
        exact ⟨name, List.mem_cons_self _ _, fn, hl, hf⟩
      · rcases ih _ h with ⟨n, hn, h1, h2⟩ | ⟨n, hn, fn1, h1, h2⟩
        · exact Or.inl ⟨n, List.mem_cons_of_mem _ hn, h1, h2⟩
        · exact Or.inr ⟨n, List.mem_cons_of_mem _ hn, fn1, h1, h2⟩

theorem loadLoop_first_failure (Factories : FactoryMap) (names : List String)
    (collectors : List (String × Collector))
    (hreg : ∀ n ∈ names, hasFactory Factories n = true)
    (hfail : ∃ n ∈ names, ∃ fn e, Factories.lookup n = some fn ∧ fn () = Except.error e) :
    ∃ pre n post fn e, names = pre ++ n :: post ∧
      (∀ m ∈ pre, ∃ fm c, Factories.lookup m = some fm ∧ fm () = Except.ok c) ∧
      Factories.lookup n = some fn ∧ fn () = Except.error e ∧
      loadLoop Factories names collectors = Except.error e := by
  induction names generalizing collectors with
  | nil =>
    obtain ⟨n, hn, _⟩ := hfail
    simp at hn
  | cons name rest ih =>
    have hname : hasFactory Factories name = true := hreg name (List.mem_cons_self _ _)
    unfold hasFactory at hname
    cases hl : Factories.lookup name with
    | none => simp [hl] at hname
    | some fn =>
      cases hf : fn () with
      | error e =>
        refine ⟨[], name, rest, fn, e, rfl, ?_, hl, hf, ?_⟩
        · intro m hm
          simp at hm
        · simp [loadLoop, hl, hf]
      | ok c =>
        have hfail1 : ∃ n ∈ rest, ∃ fn e, Factories.lookup n = some fn ∧
            fn () = Except.error e := by
          obtain ⟨n, hn, fn1, e, h1, h2⟩ := hfail
          rcases List.mem_cons.1 hn with h | h
          · subst h
            rw [hl] at h1
            injection h1 with h1
            subst h1
            rw [hf] at h2
            cases h2
          · exact ⟨n, h, fn1, e, h1, h2⟩
        obtain ⟨pre, n, post, fn1, e, h1, h2, h3, h4, h5⟩ :=
          ih (mapSet collectors name c) (fun n hn => hreg n (List.mem_cons_of_mem _ hn)) hfail1
        refine ⟨name :: pre, n, post, fn1, e, by simp [h1], ?_, h3, h4, ?_⟩
        · intro m hm
          rcases List.mem_cons.1 hm with h | h
          · subst h
            exact ⟨fn, c, hl, hf⟩
          · exact h2 m h
        · simp [loadLoop, hl, hf, h5]

/-- When at least one requested name is in the registry, the composition used by `Register`
fails only with the error of a factory of a name that is requested and registered. -/
theorem loadCollectors_filter_error (Factories : FactoryMap) (requested e : String)
    (hne : availableCollectors Factories requested ≠ [])
    (h : loadCollectors Factories (filterAvailableCollectors Factories requested)
      = Except.error e) :
    ∃ n ∈ stringsSplit requested ',', ∃ fn,
      Factories.lookup n = some fn ∧ fn () = Except.error e := by
  have hav := availableCollectors_eq_filter Factories requested
  have hsep : ∀ n ∈ availableCollectors Factories requested, ',' ∉ n.data := by
    intro n hn
    rw [hav] at hn
    exact stringsSplit_no_sep ',' requested n (List.mem_filter.1 hn).1
  unfold loadCollectors filterAvailableCollectors at h
  rw [stringsSplit_stringsJoin ',' _ hne hsep] at h
  rcases loadLoop_error _ _ _ _ h with ⟨n, hn, h1, _⟩ | ⟨n, hn, fn, h1, h2⟩
  · rw [hav] at hn
    have := (List.mem_filter.1 hn).2
    simp [hasFactory, h1] at this
  · rw [hav] at hn
    exact ⟨n, (List.mem_filter.1 hn).1, fn, h1, h2⟩

/-- Scenario "unknown collector dropped": the request `cpu,made_up,meminfo` on the registry
with `cpu` and `meminfo` loads exactly these two. -/
theorem loadCollectors_unknown_dropped :
    filterAvailableCollectors minimalFactories "cpu,made_up,meminfo" = "cpu,meminfo" ∧
    loadCollectors minimalFactories
        (filterAvailableCollectors minimalFactories "cpu,made_up,meminfo")
      = Except.ok [("cpu", okCollector), ("meminfo", okCollector)] := by
  constructor
  · decide
  · rfl

/-- C3. The names `filterAvailableCollectors` joins into its result are an order-preserving
subsequence of the names split from the request, each of them is a key of the registry, and
every requested name that is a key of the registry is among them; splitting a result that
holds at least one name gives these names back. -/
theorem filterAvailableCollectors_subsequence (Factories : FactoryMap) (requested : String) :
    filterAvailableCollectors Factories requested
        = stringsJoin (availableCollectors Factories requested) ',' ∧
    (availableCollectors Factories requested).Sublist (stringsSplit requested ',') ∧
    (∀ n ∈ availableCollectors Factories requested, hasFactory Factories n = true) ∧
    (∀ n ∈ stringsSplit requested ',', hasFactory Factories n = true →
      n ∈ availableCollectors Factories requested) ∧
    (availableCollectors Factories requested ≠ [] →
      stringsSplit (filterAvailableCollectors Factories requested) ','
        = availableCollectors Factories requested) := by
  have hav := availableCollectors_eq_filter Factories requested
  refine ⟨rfl, ?_, ?_, ?_, ?_⟩
  · rw [hav]
    exact List.filter_sublist _
  · intro n hn
    rw [hav] at hn
    exact (List.mem_filter.1 hn).2
  · intro n hn hk
    rw [hav]
    exact List.mem_filter.2 ⟨hn, hk⟩
  · intro hne
    unfold filterAvailableCollectors
    refine stringsSplit_stringsJoin ',' _ hne ?_
    intro n hn
    rw [hav] at hn
    exact stringsSplit_no_sep ',' requested n (List.mem_filter.1 hn).1

/-- C3, at the request `cpu,made_up,meminfo`: the result splits into `cpu` and `meminfo`. -/
theorem filterAvailableCollectors_subsequence_witness :
    availableCollectors minimalFactories "cpu,made_up,meminfo" ≠ [] ∧
    stringsSplit (filterAvailableCollectors minimalFactories "cpu,made_up,meminfo") ','
      = availableCollectors minimalFactories "cpu,made_up,meminfo" :=
  ⟨by decide,
    (filterAvailableCollectors_subsequence minimalFactories "cpu,made_up,meminfo").2.2.2.2
      (by decide)⟩

/-- C4. With the registry of `cpu` and `meminfo`, whose factories both succeed, and the
request `made_up`, the filter returns the empty string and `loadCollectors` fails on it
with `collector '' not available`, although no factory failed. -/
theorem loadCollectors_filter_none_available :
    filterAvailableCollectors minimalFactories "made_up" = "" ∧
    loadCollectors minimalFactories (filterAvailableCollectors minimalFactories "made_up")
      = Except.error "collector '' not available" ∧
    (∀ n fn, minimalFactories.lookup n = some fn → ∃ c, fn () = Except.ok c) := by
  refine ⟨by decide, rfl, ?_⟩
  intro n fn h
  simp only [minimalFactories, List.lookup] at h
  split at h
  · injection h with h
    subst h
    exact ⟨okCollector, rfl⟩
  · split at h
    · injection h with h
      subst h
      exact ⟨okCollector, rfl⟩
    · cases h

/-- C5, as stated, fails: the factory of `cpu` fails with `boom`, and the error
`loadCollectors` returns is `boom`, which does not contain the name `cpu`. -/
theorem loadCollectors_error_not_named :
    (∀ n ∈ stringsSplit "cpu" ',', hasFactory failingFactories n = true) ∧
    loadCollectors failingFactories "cpu" = Except.error "boom" ∧
    mentions "boom" "cpu" = false := by
  refine ⟨by decide, rfl, by decide⟩

/-- C5, amended. When every listed name is in the registry and the factory of some listed
name fails, `loadCollectors` returns no map and exactly the error returned by the factory of
the first listed name whose factory fails. -/
theorem loadCollectors_first_factory_error (Factories : FactoryMap) (list : String)
    (hreg : ∀ n ∈ stringsSplit list ',', hasFactory Factories n = true)
    (hfail : ∃ n ∈ stringsSplit list ',', ∃ fn e,
      Factories.lookup n = some fn ∧ fn () = Except.error e) :
    ∃ pre n post fn e, stringsSplit list ',' = pre ++ n :: post ∧
      (∀ m ∈ pre, ∃ fm c, Factories.lookup m = some fm ∧ fm () = Except.ok c) ∧
      Factories.lookup n = some fn ∧ fn () = Except.error e ∧
      loadCollectors Factories list = Except.error e :=
  loadLoop_first_failure Factories (stringsSplit list ',') [] hreg hfail

/-- C5, with `cpu,diskstats,meminfo` on a registry where `diskstats` and `meminfo` fail:
the error returned is that of `diskstats`. -/
theorem loadCollectors_first_factory_error_witness :
    (∀ n ∈ stringsSplit "cpu,diskstats,meminfo" ',', hasFactory mixedFactories n = true) ∧
    ∃ pre n post fn e, stringsSplit "cpu,diskstats,meminfo" ',' = pre ++ n :: post ∧
      (∀ m ∈ pre, ∃ fm c, mixedFactories.lookup m = some fm ∧ fm () = Except.ok c) ∧
      mixedFactories.lookup n = some fn ∧ fn () = Except.error e ∧
      loadCollectors mixedFactories "cpu,diskstats,meminfo" = Except.error e :=
  ⟨by decide,
    loadCollectors_first_factory_error mixedFactories "cpu,diskstats,meminfo" (by decide)
      ⟨"diskstats", by decide, fun _ => Except.error "disk", "disk", rfl, rfl⟩⟩

/-- C6, as stated, fails: `cpu` is requested twice and is returned twice. -/
theorem filterAvailableCollectors_keeps_duplicates :
    filterAvailableCollectors minimalFactories "cpu,cpu" = "cpu,cpu" ∧
    stringsSplit (filterAvailableCollectors minimalFactories "cpu,cpu") ','
      = ["cpu", "cpu"] ∧
    (availableCollectors minimalFactories "cpu,cpu").count "cpu" = 2 := by
  refine ⟨by decide, by decide, by decide⟩

/-- C6, amended. `filterAvailableCollectors` does not deduplicate: a name that is a key of
the registry occurs among the names it joins exactly as often as in the request, a name that
is not a key does not occur, and the order is that of the request. -/
theorem filterAvailableCollectors_count (Factories : FactoryMap) (requested n : String) :
    filterAvailableCollectors Factories requested
        = stringsJoin (availableCollectors Factories requested) ',' ∧
    (availableCollectors Factories requested).Sublist (stringsSplit requested ',') ∧
    (availableCollectors Factories requested).count n
      = if hasFactory Factories n = true then (stringsSplit requested ',').count n else 0 := by
  have hav := availableCollectors_eq_filter Factories requested
  refine ⟨rfl, ?_, ?_⟩
  · rw [hav]
    exact List.filter_sublist _
  · rw [hav]
    by_cases hk : hasFactory Factories n = true
    · rw [if_pos hk]
      exact List.count_filter hk
    · rw [if_neg hk]
      apply List.count_eq_zero.2
      intro hmem
      exact hk (List.mem_filter.1 hmem).2

/-! ## Interleavings -/

theorem Interleaving.perm {α : Type} {ts : List (List α)} {out : List α}
    (h : Interleaving ts out) : out.Perm ts.flatten := by
  induction h with
  | done ts hall =>
    have : ts.flatten = [] := by
      induction ts with
      | nil => rfl
      | cons t rest ih =>
        rw [List.flatten_cons, hall t (List.mem_cons_self _ _),
          ih (fun u hu => hall u (List.mem_cons_of_mem _ hu))]
        rfl
    rw [this]
  | send pre post x t out _ ih =>
    simp only [List.flatten_append, List.flatten_cons, List.cons_append] at ih ⊢
    exact (List.Perm.cons x ih).trans List.perm_middle.symm

theorem Interleaving.sublist {α : Type} {ts : List (List α)} {out : List α}
    (h : Interleaving ts out) : ∀ t ∈ ts, t.Sublist out := by
  induction h with
  | done ts hall =>
    intro t ht
    rw [hall t ht]
  | send pre post x t out _ ih =>
    intro u hu
    rcases List.mem_append.1 hu with h1 | h1
    · exact (ih u (List.mem_append_left _ h1)).cons x
    · rcases List.mem_cons.1 h1 with h2 | h2
      · subst h2
        exact (ih t (List.mem_append_right _ (List.mem_cons_self _ _))).cons₂ x
      · exact (ih u (List.mem_append_right _ (List.mem_cons_of_mem _ h2))).cons x

theorem Interleaving.cons_nil {α : Type} {ts : List (List α)} {out : List α}
    (h : Interleaving ts out) : Interleaving ([] :: ts) out := by
  induction h with
  | done ts hall =>
    refine Interleaving.done _ ?_
    intro t ht
    rcases List.mem_cons.1 ht with h1 | h1
    · exact h1
    · exact hall t h1
  | send pre post x t out _ ih =>
    exact Interleaving.send ([] :: pre) post x t out ih

theorem interleaving_flatten {α : Type} (ts : List (List α)) :
    Interleaving ts ts.flatten := by
  induction ts with
  | nil => exact Interleaving.done [] (by simp)
  | cons t rest ih =>
    induction t with
    | nil => simpa using ih.cons_nil
    | cons x t iht =>
      have := Interleaving.send [] rest x t _ iht
      simpa using this

theorem Collect_CollectSeq (collectors : List (String × Collector)) :
    Collect collectors (CollectSeq collectors) :=
  interleaving_flatten _

theorem sendAt_some {α : Type} (ts : List (List α)) (i : Nat) (x : α) (ts1 : List (List α))
    (h : sendAt ts i = some (x, ts1)) :
    ∃ pre t post, ts = pre ++ (x :: t) :: post ∧ ts1 = pre ++ t :: post := by
  induction ts generalizing i ts1 with
  | nil => simp [sendAt] at h
  | cons t0 rest ih =>
    cases i with
    | zero =>
      cases t0 with
      | nil => simp [sendAt] at h
      | cons y t =>
        simp only [sendAt, Option.some.injEq, Prod.mk.injEq] at h
        obtain ⟨rfl, rfl⟩ := h
        exact ⟨[], t, rest, rfl, rfl⟩
    | succ j =>
      simp only [sendAt] at h
      split at h
      · cases h
      · rename_i y ts2 hs
        simp only [Option.some.injEq, Prod.mk.injEq] at h
        obtain ⟨rfl, rfl⟩ := h
        obtain ⟨pre, t, post, h1, h2⟩ := ih j ts2 hs
        exact ⟨t0 :: pre, t, post, by simp [h1], by simp [h2]⟩

theorem sendAt_length {α : Type} (pre post : List (List α)) (x : α) (t : List α) :
    sendAt (pre ++ (x :: t) :: post) pre.length = some (x, pre ++ t :: post) := by
  induction pre with
  | nil => simp [sendAt]
  | cons t0 rest ih => simp [sendAt, ih]

theorem runSchedule_sound {α : Type} (ts : List (List α)) (schedule : List Nat)
    (out : List α) (h : runSchedule ts schedule = some out) : Interleaving ts out := by
  induction schedule generalizing ts out with
  | nil =>
    simp only [runSchedule] at h
    split at h
    · rename_i hall
      injection h with h
      subst h
      refine Interleaving.done ts ?_
      intro t ht
      have := List.all_eq_true.1 hall t ht
      simpa using this
    · cases h
  | cons i rest ih =>
    simp only [runSchedule] at h
    split at h
    · cases h
    · rename_i x ts1 hs
      split at h
      · cases h
      · rename_i out1 hr
        injection h with h
        subst h
        obtain ⟨pre, t, post, h1, h2⟩ := sendAt_some ts i x ts1 hs
        subst h1
        subst h2
        exact Interleaving.send pre post x t out1 (ih _ _ hr)

theorem runSchedule_complete {α : Type} (ts : List (List α)) (out : List α)
    (h : Interleaving ts out) : ∃ schedule, runSchedule ts schedule = some out := by
  induction h with
  | done ts hall =>
    refine ⟨[], ?_⟩
    have : ts.all List.isEmpty = true := by
      apply List.all_eq_true.2
      intro t ht
      simp [hall t ht]
    simp [runSchedule, this]
  | send pre post x t out _ ih =>
    obtain ⟨schedule, hs⟩ := ih
    exact ⟨pre.length :: schedule, by simp [runSchedule, sendAt_length, hs]⟩

/-- The sinks of `Collect` are exactly the results of `CollectWith` over all schedules. -/
theorem Collect_iff_CollectWith (collectors : List (String × Collector)) (sink : List Metric) :
    Collect collectors sink ↔ ∃ schedule, CollectWith collectors schedule = some sink :=
  ⟨runSchedule_complete _ sink, fun ⟨schedule, h⟩ => runSchedule_sound _ schedule sink h⟩

/-! ## Collect -/

theorem execute_label_arity (name : String) :
    [name].length = scrapeDurationDesc.variableLabels.length ∧
    [name].length = scrapeSuccessDesc.variableLabels.length := by
  constructor <;> rfl

theorem scrapeDescs_ne : scrapeSuccessDesc ≠ scrapeDurationDesc := by decide

theorem execute_count_duration (k n : String) (c : Collector)
    (hown : ∀ m ∈ c.emitted, m.desc ≠ scrapeDurationDesc ∧ m.desc ≠ scrapeSuccessDesc) :
    (execute k c).countP (isDurationSample n) = if k = n then 1 else 0 := by
  have h0 : c.emitted.countP (isDurationSample n) = 0 := by
    apply List.countP_eq_zero.2
    intro m hm
    simp [isDurationSample, (hown m hm).1]
  unfold execute
  simp only [List.countP_append, h0, Nat.zero_add]
  by_cases hk : k = n
  · simp [List.countP_cons, isDurationSample, MustNewConstMetric, hk, scrapeDescs_ne]
  · simp [List.countP_cons, isDurationSample, MustNewConstMetric, hk, scrapeDescs_ne]

theorem execute_count_success (k n : String) (c : Collector)
    (hown : ∀ m ∈ c.emitted, m.desc ≠ scrapeDurationDesc ∧ m.desc ≠ scrapeSuccessDesc) :
    (execute k c).countP (isSuccessSample n) = if k = n then 1 else 0 := by
  have h0 : c.emitted.countP (isSuccessSample n) = 0 := by
    apply List.countP_eq_zero.2
    intro m hm
    simp [isSuccessSample, (hown m hm).2]
  unfold execute
  simp only [List.countP_append, h0, Nat.zero_add]
  by_cases hk : k = n
  · simp [List.countP_cons, isSuccessSample, MustNewConstMetric, hk, scrapeDescs_ne.symm]
  · simp [List.countP_cons, isSuccessSample, MustNewConstMetric, hk, scrapeDescs_ne.symm]

theorem CollectSeq_count (p : Metric → Bool) (n : String)
    (collectors : List (String × Collector))
    (hp : ∀ nc ∈ collectors, (execute nc.1 nc.2).countP p = if nc.1 = n then 1 else 0) :
    (CollectSeq collectors).countP p = (collectors.map Prod.fst).count n := by
  induction collectors with
  | nil => rfl
  | cons nc rest ih =>
    have h1 := hp nc (List.mem_cons_self _ _)
    have h2 := ih (fun x hx => hp x (List.mem_cons_of_mem _ hx))
    unfold CollectSeq at h2 ⊢
    simp only [List.map_cons, List.flatten_cons, List.countP_append, h1, h2, List.count_cons]
    by_cases hk : nc.1 = n
    · simp [hk, Nat.add_comm]
    · simp [hk]

theorem mem_CollectSeq (collectors : List (String × Collector)) (m : Metric)
    (h : m ∈ CollectSeq collectors) : ∃ nc ∈ collectors, m ∈ execute nc.1 nc.2 := by
  unfold CollectSeq at h
  rcases List.mem_flatten.1 h with ⟨t, ht, hm⟩
  rcases List.mem_map.1 ht with ⟨nc, hnc, rfl⟩
  exact ⟨nc, hnc, hm⟩

theorem Seconds_nonneg (nanos : Nat) : 0 ≤ Seconds nanos := by
  unfold Seconds
  positivity

/-- C1, as stated, fails: the loaded sub-collector `cpu` sends a `scrape_duration` sample
labelled `cpu` and a `scrape_success` sample labelled `gpu`; the sink then holds two
duration samples for `cpu` and a success sample for `gpu`, which is not loaded. -/
theorem Collect_rogue_samples :
    Collect rogueCollectors (CollectSeq rogueCollectors) ∧
    (CollectSeq rogueCollectors).countP (isDurationSample "cpu") = 2 ∧
    "gpu" ∉ rogueCollectors.map Prod.fst ∧
    (CollectSeq rogueCollectors).countP (isSuccessSample "gpu") = 1 := by
  refine ⟨Collect_CollectSeq _, by decide, by decide, by decide⟩

/-- C1, amended. When no sub-collector sends a sample of the descriptors `scrape_duration`
and `scrape_success` itself, `Collect` completes, and every sink it can produce holds, for
every loaded name, exactly one duration and one success sample labelled with it, none for a
name that is not loaded, with success value 0 or 1 and duration at least 0. -/
theorem Collect_scrape_samples (collectors : List (String × Collector))
    (hkeys : (collectors.map Prod.fst).Nodup)
    (hown : ∀ nc ∈ collectors, ∀ m ∈ nc.2.emitted,
      m.desc ≠ scrapeDurationDesc ∧ m.desc ≠ scrapeSuccessDesc) :
    Collect collectors (CollectSeq collectors) ∧
    ∀ sink, Collect collectors sink → ∀ n : String,
      (n ∈ collectors.map Prod.fst →
        sink.countP (isDurationSample n) = 1 ∧ sink.countP (isSuccessSample n) = 1) ∧
      (n ∉ collectors.map Prod.fst →
        sink.countP (isDurationSample n) = 0 ∧ sink.countP (isSuccessSample n) = 0) ∧
      (∀ m ∈ sink, isSuccessSample n m = true → m.value = 0 ∨ m.value = 1) ∧
      (∀ m ∈ sink, isDurationSample n m = true → 0 ≤ m.value) := by
  refine ⟨Collect_CollectSeq _, ?_⟩
  intro sink hrun n
  have hperm : sink.Perm (CollectSeq collectors) := Interleaving.perm hrun
  have hd : sink.countP (isDurationSample n) = (collectors.map Prod.fst).count n := by
    rw [hperm.countP_eq]
    exact CollectSeq_count _ n collectors
      (fun nc hnc => execute_count_duration nc.1 n nc.2 (hown nc hnc))
  have hs : sink.countP (isSuccessSample n) = (collectors.map Prod.fst).count n := by
    rw [hperm.countP_eq]
    exact CollectSeq_count _ n collectors
      (fun nc hnc => execute_count_success nc.1 n nc.2 (hown nc hnc))
  refine ⟨?_, ?_, ?_, ?_⟩
  · intro hmem
    rw [hd, hs, List.count_eq_one_of_mem hkeys hmem]
    exact ⟨rfl, rfl⟩
  · intro hmem
    rw [hd, hs, List.count_eq_zero.2 hmem]
    exact ⟨rfl, rfl⟩
  · intro m hm hsucc
    obtain ⟨nc, hnc, hmem⟩ := mem_CollectSeq collectors m (hperm.subset hm)
    unfold execute at hmem
    simp only [List.mem_append, List.mem_cons, List.mem_singleton, List.not_mem_nil,
      or_false] at hmem
    rcases hmem with h | h | h
    · simp [isSuccessSample, (hown nc hnc m h).2] at hsucc
    · subst h
      simp [isSuccessSample, MustNewConstMetric, scrapeDescs_ne.symm] at hsucc
    · subst h
      cases nc.2.err <;> simp [MustNewConstMetric]
  · intro m hm hdur
    obtain ⟨nc, hnc, hmem⟩ := mem_CollectSeq collectors m (hperm.subset hm)
    unfold execute at hmem
    simp only [List.mem_append, List.mem_cons, List.mem_singleton, List.not_mem_nil,
      or_false] at hmem
    rcases hmem with h | h | h
    · simp [isDurationSample, (hown nc hnc m h).1] at hdur
    · subst h
      exact Seconds_nonneg _
    · subst h
      simp [isDurationSample, MustNewConstMetric, scrapeDescs_ne] at hdur

/-- C1, on the scenario "partial scrape failure" with the two goroutines interleaved
(`diskstats`, `cpu`, `cpu`, `diskstats`, `cpu`), for the name `diskstats`. -/
theorem Collect_scrape_samples_witness :
    ((diskFailure.map Prod.fst).Nodup ∧
      ∀ nc ∈ diskFailure, ∀ m ∈ nc.2.emitted,
        m.desc ≠ scrapeDurationDesc ∧ m.desc ≠ scrapeSuccessDesc) ∧
    (∃ sink, CollectWith diskFailure [1, 0, 0, 1, 0] = some sink ∧
      sink.countP (isDurationSample "diskstats") = 1 ∧
      sink.countP (isSuccessSample "diskstats") = 1) :=
  ⟨⟨by decide, by decide⟩,
    ⟨(CollectWith diskFailure [1, 0, 0, 1, 0]).get (by decide), by simp,
      (((Collect_scrape_samples diskFailure (by decide) (by decide)).2 _
        ((Collect_iff_CollectWith diskFailure _).2 ⟨[1, 0, 0, 1, 0], by simp⟩) "diskstats").1
        (by decide))⟩⟩

theorem execute_peer_sublist (m : String) (cm : Collector) :
    (cm.emitted ++ [MustNewConstMetric scrapeSuccessDesc ValueType.GaugeValue
      (if cm.err = none then 1 else 0) [m]]).Sublist (execute m cm) := by
  unfold execute
  apply List.Sublist.append (List.Sublist.refl _)
  have hv : (match cm.err with
      | some _ => (0 : Rat)
      | none => 1) = if cm.err = none then 1 else 0 := by
    cases cm.err <;> simp
  simp only [hv]
  exact (List.Sublist.refl _).cons _

/-- C2. When the `Update` of the loaded sub-collector `n` returns an error, `Collect`
completes and every sink it can produce holds the sample `scrape_success` labelled `n` with
value 0; for every other loaded sub-collector `m` the sink holds, in order, the metrics sent
by the `Update` of `m` followed by its `scrape_success` sample (1 if that `Update` succeeded,
0 if it failed), and so does every sink of a scrape in which the peers behave in the same way
whatever `n` does there (in particular when `n` succeeds). -/
theorem Collect_failure_isolated (collectors collectors2 : List (String × Collector))
    (n : String) (c : Collector) (e : String)
    (hn : (n, c) ∈ collectors) (herr : c.err = some e)
    (hpeers : ∀ m cm, (m, cm) ∈ collectors → m ≠ n →
      ∃ cm2, (m, cm2) ∈ collectors2 ∧ cm2.emitted = cm.emitted ∧ cm2.err = cm.err) :
    Collect collectors (CollectSeq collectors) ∧
    ∀ sink sink2, Collect collectors sink → Collect collectors2 sink2 →
      MustNewConstMetric scrapeSuccessDesc ValueType.GaugeValue 0 [n] ∈ sink ∧
      ∀ m cm, (m, cm) ∈ collectors → m ≠ n →
        (cm.emitted ++ [MustNewConstMetric scrapeSuccessDesc ValueType.GaugeValue
          (if cm.err = none then 1 else 0) [m]]).Sublist sink ∧
        (cm.emitted ++ [MustNewConstMetric scrapeSuccessDesc ValueType.GaugeValue
          (if cm.err = none then 1 else 0) [m]]).Sublist sink2 := by
  refine ⟨Collect_CollectSeq _, ?_⟩
  intro sink sink2 hrun hrun2
  constructor
  · have hsub : (execute n c).Sublist sink :=
      Interleaving.sublist hrun _ (List.mem_map.2 ⟨(n, c), hn, rfl⟩)
    apply hsub.subset
    unfold execute
    simp [herr]
  · intro m cm hm hne
    constructor
    · exact (execute_peer_sublist m cm).trans
        (Interleaving.sublist hrun _ (List.mem_map.2 ⟨(m, cm), hm, rfl⟩))
    · obtain ⟨cm2, hm2, hem, her⟩ := hpeers m cm hm hne
      have h2 := (execute_peer_sublist m cm2).trans
        (Interleaving.sublist hrun2 _ (List.mem_map.2 ⟨(m, cm2), hm2, rfl⟩))
      rw [hem, her] at h2
      exact h2

/-- C2, on the scenario "partial scrape failure" against the scrape in which `diskstats`
succeeds: `cpu` contributes its metric and `scrape_success = 1` to both. -/
theorem Collect_failure_isolated_witness :
    (("diskstats", (⟨[], some "read error", 300⟩ : Collector)) ∈ diskFailure) ∧
    MustNewConstMetric scrapeSuccessDesc ValueType.GaugeValue 0 ["diskstats"]
      ∈ CollectSeq diskFailure ∧
    ∀ m cm, (m, cm) ∈ diskFailure → m ≠ "diskstats" →
      (cm.emitted ++ [MustNewConstMetric scrapeSuccessDesc ValueType.GaugeValue
        (if cm.err = none then 1 else 0) [m]]).Sublist (CollectSeq diskFailure) ∧
      (cm.emitted ++ [MustNewConstMetric scrapeSuccessDesc ValueType.GaugeValue
        (if cm.err = none then 1 else 0) [m]]).Sublist
          (CollectSeq (mapSet diskFailure "diskstats" okCollector)) :=
  ⟨by decide,
    (Collect_failure_isolated diskFailure (mapSet diskFailure "diskstats" okCollector)
      "diskstats" ⟨[], some "read error", 300⟩ "read error" (by decide) rfl
      (by
        intro m cm hm hne
        refine ⟨cm, ?_, rfl, rfl⟩
        simp only [diskFailure, List.mem_cons, Prod.mk.injEq, List.mem_singleton,
          List.not_mem_nil, or_false] at hm
        rcases hm with ⟨h1, h2⟩ | ⟨h1, _⟩
        · subst h1; subst h2
          decide
        · exact absurd h1 hne)).2
      (CollectSeq diskFailure) (CollectSeq (mapSet diskFailure "diskstats" okCollector))
      (Collect_CollectSeq _) (Collect_CollectSeq _)⟩

/-! ## computeApproximateRequestSize -/

theorem wrapInt_add_left (a b : Int) : wrapInt (wrapInt a + b) = wrapInt (a + b) := by
  unfold wrapInt
  omega

theorem wrapInt_add_right (a b : Int) : wrapInt (a + wrapInt b) = wrapInt (a + b) := by
  unfold wrapInt
  omega

theorem wrapInt_idem (a : Int) : wrapInt (wrapInt a) = wrapInt a := by
  unfold wrapInt
  omega

theorem wrapInt_of_range (a : Int) (h1 : -9223372036854775808 ≤ a)
    (h2 : a < 9223372036854775808) : wrapInt a = a := by
  unfold wrapInt
  omega

theorem values_loop (vs : List String) (s0 : Int) :
    wrapInt (vs.foldl (fun s value => wrapInt (s + len value)) s0)
      = wrapInt (s0 + (vs.map len).sum) := by
  induction vs generalizing s0 with
  | nil => simp
  | cons v rest ih =>
    simp only [List.foldl_cons, List.map_cons, List.sum_cons]
    rw [ih, wrapInt_add_left, Int.add_assoc]

theorem wrapInt_congr (a a2 b : Int) (h : wrapInt a = wrapInt a2) :
    wrapInt (a + b) = wrapInt (a2 + b) := by
  unfold wrapInt at *
  omega

theorem header_loop (hs : List (String × List String)) (s0 : Int) :
    wrapInt (hs.foldl
        (fun s nv => nv.2.foldl (fun s value => wrapInt (s + len value))
          (wrapInt (s + len nv.1))) s0)
      = wrapInt (s0 + (hs.map (fun nv => len nv.1 + (nv.2.map len).sum)).sum) := by
  induction hs generalizing s0 with
  | nil => simp
  | cons nv rest ih =>
    simp only [List.foldl_cons, List.map_cons, List.sum_cons]
    rw [ih]
    have h1 := values_loop nv.2 (wrapInt (s0 + len nv.1))
    rw [wrapInt_add_left] at h1
    rw [wrapInt_congr _ _ _ h1]
    congr 1
    omega

theorem size_core (u0 m p host cl : Int) (hs : List (String × List String)) :
    (if cl ≠ -1 then
        wrapInt (wrapInt ((hs.foldl
          (fun s nv => nv.2.foldl (fun s value => wrapInt (s + len value))
            (wrapInt (s + len nv.1)))
          (wrapInt (wrapInt (u0 + m) + p))) + host) + wrapInt cl)
      else
        wrapInt ((hs.foldl
          (fun s nv => nv.2.foldl (fun s value => wrapInt (s + len value))
            (wrapInt (s + len nv.1)))
          (wrapInt (wrapInt (u0 + m) + p))) + host))
      = wrapInt (u0 + m + p + (hs.map (fun nv => len nv.1 + (nv.2.map len).sum)).sum + host
          + (if cl ≠ -1 then cl else 0)) := by
  have h4 := header_loop hs (wrapInt (wrapInt (u0 + m) + p))
  generalize hs.foldl
    (fun s nv => nv.2.foldl (fun s value => wrapInt (s + len value))
      (wrapInt (s + len nv.1)))
    (wrapInt (wrapInt (u0 + m) + p)) = s4 at h4 ⊢
  generalize (hs.map (fun nv => len nv.1 + (nv.2.map len).sum)).sum = total at h4 ⊢
  unfold wrapInt at *
  split <;> omega

theorem computeApproximateRequestSize_wrap (r : Request) :
    computeApproximateRequestSize r = wrapInt (requestSizeSum r) := by
  unfold computeApproximateRequestSize requestSizeSum
  cases r.URL with
  | none => simpa using size_core 0 (len r.Method) (len r.Proto) (len r.Host) r.ContentLength r.Header
  | some u => simpa using size_core (len u.String) (len r.Method) (len r.Proto) (len r.Host) r.ContentLength r.Header

/-- The header map is iterated in no fixed order; the value computed does not depend on
the order. -/
theorem computeApproximateRequestSize_header_order (r : Request)
    (hs : List (String × List String)) (h : hs.Perm r.Header) :
    computeApproximateRequestSize { r with Header := hs } = computeApproximateRequestSize r := by
  rw [computeApproximateRequestSize_wrap, computeApproximateRequestSize_wrap]
  unfold requestSizeSum
  simp only []
  rw [(h.map _).sum_eq]

/-- C7, as stated, fails: with Content-Length `-5` the source subtracts 5 and sends 16, while
the sum with "Content-Length if non-negative, otherwise 0" is 21; with Content-Length
`2^63 - 1` the additions overflow the 64-bit `int` and a negative value is sent. -/
theorem computeApproximateRequestSize_negative_length :
    computeApproximateRequestSize negativeLengthRequest = 16 ∧
    specRequestSize negativeLengthRequest = 21 ∧
    computeApproximateRequestSize hugeLengthRequest = -9223372036854775788 ∧
    specRequestSize hugeLengthRequest = 9223372036854775828 := by
  refine ⟨by decide, by decide, by decide, by decide⟩

/-- C7, amended. The value sent is the sum of the lengths of the URL string, the method, the
protocol, every header name and header value and the host, plus the Content-Length unless
the Content-Length is `-1`, reduced to the 64-bit `int`; it is that sum itself whenever the
sum fits in 64 bits. -/
theorem computeApproximateRequestSize_sum (r : Request) :
    computeApproximateRequestSize r = wrapInt (requestSizeSum r) ∧
    (-9223372036854775808 ≤ requestSizeSum r → requestSizeSum r < 9223372036854775808 →
      computeApproximateRequestSize r = requestSizeSum r) := by
  refine ⟨computeApproximateRequestSize_wrap r, ?_⟩
  intro h1 h2
  rw [computeApproximateRequestSize_wrap, wrapInt_of_range _ h1 h2]

/-- C7, on the scenario "request-size computation": the size is 21. -/
theorem computeApproximateRequestSize_sum_witness :
    requestSizeSum exampleRequest = 21 ∧ computeApproximateRequestSize exampleRequest = 21 :=
  ⟨by decide,
    ((computeApproximateRequestSize_sum exampleRequest).2 (by decide) (by decide)).trans
      (by decide)⟩

/-! ## webExporter.Use -/

/-- When the URL string of the request equals `MetricsPath`, the handler built by `Use` is
one call of `next` and nothing else: the world is the one `next` leaves, so no family is
incremented or observed by the middleware. The error of `next` is replaced by `nil`. -/
theorem Use_metrics_path (next : HandlerFunc) (w : World) (u : URL)
    (hu : w.request.URL = some u) (hpath : u.String = w.p.MetricsPath) :
    Use next w = (next w).map (fun r => (r.1, none)) := by
  unfold Use
  rw [hu]
  simp only [hpath, if_true]
  cases next w with
  | none => rfl
  | some r => rfl

/-- The handler built by `Use` never returns an error. -/
theorem Use_returns_nil (next : HandlerFunc) (w w1 : World) (err : Option String)
    (h : Use next w = some (w1, err)) : err = none := by
  unfold Use at h
  split at h
  · cases h
  · split at h
    · split at h
      · cases h
      · injection h with h
        injection h with _ h
        exact h.symm
    · simp only [] at h
      split at h
      · cases h
      · injection h with h
        injection h with _ h
        exact h.symm

/-- C8. The request `GET /metrics?x=1` has the URL path `/metrics`, the configured
`MetricsPath`, but its URL string is `/metrics?x=1`: the handler built by `Use` instruments
it, and each of the four families receives one increment or observation. -/
theorem Use_metrics_path_with_query :
    (metricsQueryWorld.request.URL.map URL.Path = some metricsQueryWorld.p.MetricsPath) ∧
    (Use okHandler metricsQueryWorld).map (fun r => r.1.p.reqCnt)
      = some [(["200", "GET", "/metrics?x=1"], 1)] ∧
    (Use okHandler metricsQueryWorld).map (fun r => r.1.p.reqDur.length) = some 1 ∧
    (Use okHandler metricsQueryWorld).map (fun r => r.1.p.reqSz.length) = some 1 ∧
    (Use okHandler metricsQueryWorld).map (fun r => r.1.p.resSz.length) = some 1 ∧
    (okHandler metricsQueryWorld).map (fun r => r.1.p) = some idleExporter := by
  refine ⟨by decide, by decide, by decide, by decide, by decide, by decide⟩

/-- C9. The inner handler returns the error `boom`; the handler built by `Use` returns `nil`,
both for the request `GET /metrics` and for the instrumented request `GET /p?q=1`. -/
theorem Use_drops_error :
    (failingHandler metricsWorld).map Prod.snd = some (some "boom") ∧
    (Use failingHandler metricsWorld).map Prod.snd = some none ∧
    (failingHandler pageWorld).map Prod.snd = some (some "boom") ∧
    (Use failingHandler pageWorld).map Prod.snd = some none := by
  refine ⟨by decide, by decide, by decide, by decide⟩

/-! ## captureMetricQ -/

theorem captureLoop_iff (ToLower : String → String) (lowered : String) (Metrics : List String) :
    captureLoop ToLower lowered Metrics = true ↔ ∃ e ∈ Metrics, ToLower e = lowered := by
  induction Metrics with
  | nil => simp [captureLoop]
  | cons e rest ih =>
    unfold captureLoop
    simp only []
    by_cases h : lowered = ToLower e
    · simp [h]
    · simp only [h, if_false, ih, List.mem_cons, exists_eq_or_imp]
      constructor
      · exact fun hx => Or.inr hx
      · rintro (h1 | h1)
        · exact absurd h1.symm h
        · exact h1

theorem captureMetricQ_iff (ToLower : String → String) (Metrics : List String)
    (metricName : String) :
    captureMetricQ ToLower Metrics metricName = true
      ↔ ∃ e ∈ Metrics, ToLower e = ToLower metricName :=
  captureLoop_iff ToLower (ToLower metricName) Metrics

set_option maxRecDepth 100000 in
theorem ascii_case_table :
    ∀ n : Fin 128,
      unicodeToLower (unicodeToUpper (Char.ofNat n.val)) = unicodeToLower (Char.ofNat n.val) ∧
      unicodeToLower (unicodeToLower (Char.ofNat n.val)) = unicodeToLower (Char.ofNat n.val) := by
  decide

theorem unicodeToLower_unicodeToUpper_ascii (c : Char) (h : c.toNat < 128) :
    unicodeToLower (unicodeToUpper c) = unicodeToLower c := by
  have := (ascii_case_table ⟨c.toNat, h⟩).1
  simpa [Char.ofNat_toNat] using this

theorem unicodeToLower_idem (c : Char) :
    unicodeToLower (unicodeToLower c) = unicodeToLower c := by
  by_cases hc : 'A' ≤ c ∧ c ≤ 'Z'
  · have h : c.toNat < 128 := by
      have h2 : c.toNat ≤ 'Z'.toNat := hc.2
      have h3 : 'Z'.toNat = 90 := by decide
      omega
    have := (ascii_case_table ⟨c.toNat, h⟩).2
    simpa [Char.ofNat_toNat] using this
  · simp [unicodeToLower, hc]

/-- Lower-casing twice is lower-casing once. -/
theorem stringsToLower_idem (s : String) :
    stringsToLower (stringsToLower s) = stringsToLower s := by
  unfold stringsToLower
  congr 1
  simp only [List.map_map]
  apply List.map_congr_left
  intro c _
  exact unicodeToLower_idem c

/-- On ASCII text, upper-casing does not change the lower-cased form. -/
theorem stringsToLower_stringsToUpper_ascii (s : String) (h : ∀ c ∈ s.data, c.toNat < 128) :
    stringsToLower (stringsToUpper s) = stringsToLower s := by
  unfold stringsToLower stringsToUpper
  congr 1
  simp only [List.map_map]
  apply List.map_congr_left
  intro c hc
  exact unicodeToLower_unicodeToUpper_ascii c (h c hc)

/-- C10, as stated, fails: with the configured list `["ſ"]` the name `ſ` is captured, its
upper-cased form `S` is not. -/
theorem captureMetricQ_upper_case_changes :
    captureMetricQ stringsToLower ["ſ"] "ſ" = true ∧
    stringsToUpper "ſ" = "S" ∧
    captureMetricQ stringsToLower ["ſ"] (stringsToUpper "ſ") = false := by
  refine ⟨by decide, by decide, by decide⟩

/-- C10, amended. `captureMetricQ` returns true exactly when some configured entry has the
same `strings.ToLower` image as the name; the result does not change when the name or any
entry is replaced by a string with the same `strings.ToLower` image. -/
theorem captureMetricQ_same_lower (ToLower : String → String) (Metrics Metrics2 : List String)
    (metricName metricName2 : String)
    (hname : ToLower metricName2 = ToLower metricName)
    (hlist : List.Forall₂ (fun e e2 => ToLower e2 = ToLower e) Metrics Metrics2) :
    (captureMetricQ ToLower Metrics metricName = true
      ↔ ∃ e ∈ Metrics, ToLower e = ToLower metricName) ∧
    captureMetricQ ToLower Metrics2 metricName2 = captureMetricQ ToLower Metrics metricName := by
  refine ⟨captureMetricQ_iff ToLower Metrics metricName, ?_⟩
  have key : (∃ e ∈ Metrics2, ToLower e = ToLower metricName2)
      ↔ ∃ e ∈ Metrics, ToLower e = ToLower metricName := by
    rw [hname]
    induction hlist with
    | nil => simp
    | cons hhead _ ih =>
      simp only [List.mem_cons, exists_eq_or_imp, ih, hhead]
  rw [Bool.eq_iff_iff, captureMetricQ_iff, captureMetricQ_iff]
  exact key

/-- C10, with the list `["GPU", "Cpu"]` and the name `gpu`: the first entry is replaced by
its lower-cased form, the second entry and the name by their upper-cased forms. -/
theorem captureMetricQ_same_lower_witness :
    captureMetricQ stringsToLower ["GPU", "Cpu"] "gpu" = true ∧
    captureMetricQ stringsToLower [stringsToLower "GPU", stringsToUpper "Cpu"]
        (stringsToUpper "gpu")
      = captureMetricQ stringsToLower ["GPU", "Cpu"] "gpu" :=
  ⟨by decide,
    (captureMetricQ_same_lower stringsToLower ["GPU", "Cpu"]
      [stringsToLower "GPU", stringsToUpper "Cpu"] "gpu" (stringsToUpper "gpu")
      (by decide)
      (List.Forall₂.cons (by decide) (List.Forall₂.cons (by decide) List.Forall₂.nil))).2⟩

end Health
